import Mathlib

/-!
Verification of the caching-proxy repository's cache engine: a shallow
embedding of the disk backend (`DeskCache`) and the HTTP handler
(`handleRequests`), with Go strings modelled as `List Char`, the
filesystem as an explicit structure, and Go's `strconv.Atoi` /
`strconv.Itoa` and `net/textproto` header-key canonicalization modelled
explicitly.
-/

set_option maxHeartbeats 1000000

/-- Go strings / byte slices, modelled as lists of characters. -/
abbrev GoStr := List Char

/-! ## Go `net/textproto` header-key canonicalization -/

/-- Go `validHeaderFieldByte`: the RFC 7230 token characters
(digits, letters, and the punctuation in Go's `isTokenTable`). -/
def validHeaderFieldChar (c : Char) : Bool :=
  let n := c.toNat
  (48 ≤ n && n ≤ 57) || (65 ≤ n && n ≤ 90) || (97 ≤ n && n ≤ 122) ||
  n == 33 || n == 35 || n == 36 || n == 37 || n == 38 || n == 39 ||
  n == 42 || n == 43 || n == 45 || n == 46 || n == 94 || n == 95 ||
  n == 96 || n == 124 || n == 126

/-- Uppercase an ASCII lowercase letter, other characters unchanged. -/
def toUpperAscii (c : Char) : Char :=
  if 97 ≤ c.toNat ∧ c.toNat ≤ 122 then Char.ofNat (c.toNat - 32) else c

/-- Lowercase an ASCII uppercase letter, other characters unchanged. -/
def toLowerAscii (c : Char) : Char :=
  if 65 ≤ c.toNat ∧ c.toNat ≤ 90 then Char.ofNat (c.toNat + 32) else c

/-- The case-fixing loop of Go `canonicalMIMEHeaderKey`: uppercase at the
start and after each hyphen, lowercase elsewhere. -/
def canonKeyAux : Bool → List Char → List Char
  | _, [] => []
  | upper, c :: cs =>
    (if upper then toUpperAscii c else toLowerAscii c) :: canonKeyAux (c == '-') cs

/-- Go `textproto.CanonicalMIMEHeaderKey`: if every byte is a valid header
field byte, canonicalize the case; otherwise return the key unchanged. -/
def canonicalMIMEHeaderKey (k : GoStr) : GoStr :=
  if k.all validHeaderFieldChar then canonKeyAux true k else k

/-! ## Go `http.Header` (a multimap), modelled as an association list -/

/-- Go `http.Header` / `textproto.MIMEHeader`: map from header name to the
ordered list of its values.  Modelled as an association list; lookups use
the first matching name, mirroring map semantics. -/
abbrev Header := List (GoStr × List GoStr)

/-- Append `v` to the value slice of `k`, creating the entry if absent
(the map-update part of `MIMEHeader.Add`, after canonicalization). -/
def Header.addRaw : Header → GoStr → GoStr → Header
  | [], k, v => [(k, [v])]
  | kv :: rest, k, v =>
    if kv.1 = k then (kv.1, kv.2 ++ [v]) :: rest else kv :: Header.addRaw rest k v

/-- Go `Header.Add`: canonicalize the key, then append the value. -/
def Header.add (h : Header) (k v : GoStr) : Header :=
  Header.addRaw h (canonicalMIMEHeaderKey k) v

/-- Replace the value slice of `k` by `[v]`, creating the entry if absent
(the map-update part of `MIMEHeader.Set`, after canonicalization). -/
def Header.setRaw : Header → GoStr → GoStr → Header
  | [], k, v => [(k, [v])]
  | kv :: rest, k, v =>
    if kv.1 = k then (k, [v]) :: rest else kv :: Header.setRaw rest k v

/-- Go `Header.Set`: canonicalize the key, then replace the value slice. -/
def Header.set (h : Header) (k v : GoStr) : Header :=
  Header.setRaw h (canonicalMIMEHeaderKey k) v

/-- The value slice stored under (already-canonical) name `k`; `[]` when
the name is absent, like indexing a Go map. -/
def Header.values (h : Header) (k : GoStr) : List GoStr :=
  match h.find? (fun kv => kv.1 == k) with
  | some kv => kv.2
  | none => []

/-! ## Go `strings.Split` on a one-character separator -/

/-- Go `strings.Split(s, sep)` for a one-character separator: always
returns at least one (possibly empty) field; `Split("", sep) = [""]`. -/
def splitOnChar (sep : Char) : List Char → List (List Char)
  | [] => [[]]
  | c :: cs =>
    if c = sep then [] :: splitOnChar sep cs
    else
      match splitOnChar sep cs with
      | [] => [[c]]
      | r :: rs => (c :: r) :: rs

/-! ## Go `strconv.Itoa` and `strconv.Atoi` -/

/-- Value of a big-endian list of decimal digit characters. -/
def digitsVal (cs : List Char) : Nat :=
  cs.foldl (fun a c => 10 * a + (c.toNat - 48)) 0

/-- Strip one optional leading sign, reporting whether it was a minus
(the sign handling of Go `strconv.ParseInt`). -/
def stripSign (cs : List Char) : Bool × List Char :=
  match cs with
  | [] => (false, [])
  | c :: rest =>
    if c = '-' then (true, rest)
    else if c = '+' then (false, rest)
    else (false, cs)

/-- Whether a string is a syntactically valid base-10 integer for
Go `strconv.ParseInt(s, 10, 0)`: an optional sign followed by at least
one ASCII digit and nothing else. -/
def goAtoiSyntaxOk (cs : List Char) : Bool :=
  !(stripSign cs).2.isEmpty && (stripSign cs).2.all Char.isDigit

/-- Go's 64-bit signed saturation: out-of-range `ParseInt` results are
clamped to the int64 boundary (and returned together with `ErrRange`). -/
def clampInt64 (v : Int) : Int :=
  if v > 9223372036854775807 then 9223372036854775807
  else if v < -9223372036854775808 then -9223372036854775808
  else v

/-- The integer value Go `strconv.Atoi` returns (the error is separate):
`0` on a syntax error, the clamped boundary on a range error, and the
parsed value otherwise. -/
def goAtoi (cs : List Char) : Int :=
  if goAtoiSyntaxOk cs then
    clampInt64 ((if (stripSign cs).1 then -1 else 1) * (digitsVal (stripSign cs).2 : Int))
  else 0

/-- Little-endian base-10 digits of `n`, with an explicit structural fuel
(`fuel ≥ n` suffices). -/
def natToRev : Nat → Nat → List Nat
  | 0, _ => []
  | _ + 1, 0 => []
  | fuel + 1, n + 1 => ((n + 1) % 10) :: natToRev fuel ((n + 1) / 10)

/-- Decimal representation of a natural number, as Go formats it. -/
def goNatRepr (n : Nat) : GoStr :=
  if n = 0 then ['0'] else ((natToRev n n).map Nat.digitChar).reverse

/-- Go `strconv.Itoa`: optional minus sign followed by decimal digits. -/
def goItoa (i : Int) : GoStr :=
  if i < 0 then '-' :: goNatRepr i.natAbs else goNatRepr i.natAbs

/-! ## The filesystem and the cache entry model -/

/-- The value type stored per cache key (`CacheEntry` in the source). -/
structure CacheEntry where
  StatusCode : Int
  Body : GoStr
  Headers : Header
deriving DecidableEq

/-- A filesystem: regular files are paths (lists of components) mapped to
an optional content — `none` models a file that exists but cannot be
read — and directories are a list of paths. -/
structure FS where
  files : List (List String × Option GoStr)
  dirs : List (List String)
deriving DecidableEq

/-- Replace or insert the content of file `p` (the map-update part of
`os.Create` followed by `WriteString`). -/
def fsWriteAux : List (List String × Option GoStr) → List String → GoStr →
    List (List String × Option GoStr)
  | [], p, c => [(p, some c)]
  | q :: rest, p, c =>
    if q.1 = p then (q.1, some c) :: rest else q :: fsWriteAux rest p c

/-- The source's `createAndWriteFile`: create (or truncate) the file at
`path` and write `content` to it. -/
def createAndWriteFile (fs : FS) (path : List String) (content : GoStr) : FS :=
  { fs with files := fsWriteAux fs.files path content }

/-- Go `os.ReadFile`: `none` when the file is missing or unreadable. -/
def fsReadFile (fs : FS) (p : List String) : Option GoStr :=
  match fs.files.find? (fun q => q.1 == p) with
  | some (_, some c) => some c
  | _ => none

/-- Every ancestor path of `p`, including `[]` and `p` itself. -/
def listAncestors : List String → List (List String)
  | [] => [[]]
  | x :: xs => [] :: (listAncestors xs).map (x :: ·)

/-- Go `os.MkdirAll`: ensure the directory and all its parents exist. -/
def fsMkdirAll (fs : FS) (p : List String) : FS :=
  { fs with dirs := listAncestors p ++ fs.dirs }

/-! ## The disk backend (`DeskCache`) -/

/-- The disk backend: a root directory path and a (never-consulted)
time-to-live. -/
structure DeskCache where
  DirPath : List String
  TTL : Int
deriving DecidableEq

/-- The source's `validateDirPath`: error if the path does not exist or
exists but is not a directory. -/
def validateDirPath (fs : FS) (path : List String) : Except String Unit :=
  if path ∈ fs.dirs then Except.ok ()
  else if path ∈ fs.files.map Prod.fst then Except.error "the path is not a directory"
  else Except.error "the directory does not exist"

/-- The source's `NewDeskCache`: validate the root directory, ensure it
exists, and return the backend (the `serverPort` argument is unused). -/
def NewDeskCache (fs : FS) (dirPath : List String) (serverPort : String) (ttl : Int) :
    Except String (DeskCache × FS) :=
  match validateDirPath fs dirPath with
  | Except.error e => Except.error e
  | Except.ok _ =>
    let _ := serverPort
    Except.ok ({ DirPath := dirPath, TTL := ttl }, fsMkdirAll fs dirPath)

/-- The headers-file string built by the source's `storeEntryData` loop:
for each header, the name, then `,value` for each value, then a newline. -/
def headersFileContent (hs : Header) : GoStr :=
  hs.foldl (fun acc kv => acc ++ kv.1 ++ kv.2.foldl (fun a v => a ++ ',' :: v) [] ++ ['\n']) []

/-- The source's `storeEntryData`: write the `status`, `headers` and
`body` files under the entry directory. -/
def storeEntryData (entryDir : List String) (fs : FS) (ce : CacheEntry) : FS :=
  let fs1 := createAndWriteFile fs (entryDir ++ ["status"]) (goItoa ce.StatusCode)
  let fs2 := createAndWriteFile fs1 (entryDir ++ ["headers"]) (headersFileContent ce.Headers)
  createAndWriteFile fs2 (entryDir ++ ["body"]) ce.Body

/-- `DeskCache.Set`: create the per-key directory, then store the entry. -/
def DeskCache.Set (dc : DeskCache) (fs : FS) (key : String) (val : CacheEntry) : FS :=
  let entryDir := dc.DirPath ++ [key]
  storeEntryData entryDir (fsMkdirAll fs entryDir) val

/-- One iteration of the source's headers-parsing loop: split the line on
commas, take the first field as the name, `Add` each remaining field. -/
def perLine (h : Header) (line : GoStr) : Header :=
  match splitOnChar ',' line with
  | [] => h
  | k :: vals => vals.foldl (fun hh v => Header.add hh k v) h

/-- Fold the headers-parsing loop over a list of lines. -/
def parseHeaderLines (ls : List GoStr) : Header :=
  ls.foldl perLine []

/-- Reconstruct the header multimap from the `headers` file content:
split on newlines and process each line. -/
def parseHeaders (s : GoStr) : Header :=
  parseHeaderLines (splitOnChar '\n' s)

/-- `DeskCache.Get`: read the three files (a failed read of any one of
them is a miss), `Atoi` the status (error discarded), parse the headers,
and take the body bytes verbatim. -/
def DeskCache.Get (dc : DeskCache) (fs : FS) (key : String) : Option CacheEntry :=
  match fsReadFile fs (dc.DirPath ++ [key, "status"]) with
  | none => none
  | some statusCont =>
    match fsReadFile fs (dc.DirPath ++ [key, "headers"]) with
    | none => none
    | some headersCont =>
      match fsReadFile fs (dc.DirPath ++ [key, "body"]) with
      | none => none
      | some bodyCont =>
        some { StatusCode := goAtoi statusCont,
               Headers := parseHeaders headersCont,
               Body := bodyCont }

/-- `DeskCache.Clear`: `os.RemoveAll` of the root — every file and
directory at or below `DirPath` is removed. -/
def DeskCache.Clear (dc : DeskCache) (fs : FS) : FS :=
  { files := fs.files.filter (fun q => !(dc.DirPath.isPrefixOf q.1)),
    dirs := fs.dirs.filter (fun p => !(dc.DirPath.isPrefixOf p)) }

/-! ## The HTTP handler -/

/-- An incoming request: method, URL path, and query string. -/
structure Request where
  method : String
  path : String
  query : String
deriving DecidableEq

/-- The handler's cache key: `fmt.Sprintf("%s-%s", r.Method, r.URL.Path)`.
The query string is not consulted. -/
def cacheKey (r : Request) : String :=
  r.method ++ "-" ++ r.path

/-- The proxy server: port, origin, and its disk-backed cache. -/
structure CachingProxyServer where
  Port : String
  Origin : String
  Cache : DeskCache
deriving DecidableEq

/-- The outcome of the upstream fetch collaborator: a transport-level
error (any of the three error returns in the handler), or a status code,
header multimap and body. -/
inductive UpstreamResult where
  | err : UpstreamResult
  | ok : Int → Header → GoStr → UpstreamResult
deriving DecidableEq

/-- The response as the client sees it.  `headersSent` is the header map
at the moment `WriteHeader` runs; headers the handler adds afterwards
(the `copyHeaders` calls) are never transmitted. -/
structure Response where
  status : Int
  headersSent : Header
  body : GoStr
deriving DecidableEq

/-- The miss path of `handleRequests`: set `X-Cache: MISS`, forward
upstream (`http.Error` on failure, which also sets the plain-text content
headers), write the response, and — for GET only — store the entry. -/
def handleMiss (cps : CachingProxyServer) (fs : FS) (r : Request) (key : String)
    (up : UpstreamResult) : Response × FS :=
  let hdr := Header.set [] "X-Cache".toList "MISS".toList
  match up with
  | UpstreamResult.err =>
    ({ status := 500,
       headersSent :=
         Header.set (Header.set hdr "Content-Type".toList "text/plain; charset=utf-8".toList)
           "X-Content-Type-Options".toList "nosniff".toList,
       body := "error forwarding request\n".toList }, fs)
  | UpstreamResult.ok st hs bd =>
    let fs' := if r.method = "GET"
      then DeskCache.Set cps.Cache fs key { StatusCode := st, Body := bd, Headers := hs }
      else fs
    ({ status := st, headersSent := hdr, body := bd }, fs')

/-- The source's `handleRequests`: compute the key, consult the cache,
serve a HIT only when the method is GET, otherwise take the miss path. -/
def handleRequests (cps : CachingProxyServer) (fs : FS) (r : Request)
    (up : UpstreamResult) : Response × FS :=
  let key := cacheKey r
  match DeskCache.Get cps.Cache fs key with
  | some val =>
    if r.method = "GET" then
      ({ status := val.StatusCode,
         headersSent := Header.set [] "X-Cache".toList "HIT".toList,
         body := val.Body }, fs)
    else handleMiss cps fs r key up
  | none => handleMiss cps fs r key up

/-! ## Spec-side definitions -/

/-- Modelled from the spec's grammar `headerName,value[,value]*\n`:
each header serializes to the comma-join of its name and values, followed
by a newline; lines are concatenated. -/
def specHeadersFile (hs : Header) : GoStr :=
  (hs.map (fun kv => List.intercalate [','] (kv.1 :: kv.2) ++ ['\n'])).flatten

/-- Well-formedness of a header multimap under which the disk round-trip
is exact: names are distinct, already canonical, and free of the comma
and newline delimiters; every name has at least one value; values are
free of the delimiters. -/
abbrev HeaderWF (hs : Header) : Prop :=
  (hs.map Prod.fst).Nodup ∧
  ∀ kv ∈ hs, canonicalMIMEHeaderKey kv.1 = kv.1 ∧ ',' ∉ kv.1 ∧ '\n' ∉ kv.1 ∧
    kv.2 ≠ [] ∧ ∀ v ∈ kv.2, ',' ∉ v ∧ '\n' ∉ v

/-- Whether a Go `(value, err)` return modelled as `Except` is the error
case (`err != nil`). -/
def exceptIsError : Except String (DeskCache × FS) → Bool
  | Except.error _ => true
  | Except.ok _ => false

/-! ## Filesystem lemmas -/

theorem fsWriteAux_read_same (l : List (List String × Option GoStr)) (p : List String)
    (c : GoStr) : (fsWriteAux l p c).find? (fun q => q.1 == p) = some (p, some c) := by
  induction l with
  | nil => simp [fsWriteAux, List.find?]
  | cons q rest ih =>
    by_cases h : q.1 = p
    · simp [fsWriteAux, h, List.find?]
    · simp only [fsWriteAux, if_neg h]
      rw [List.find?_cons_of_neg _ (by simpa using h)]
      exact ih

theorem fsWriteAux_read_other (l : List (List String × Option GoStr)) (p p' : List String)
    (c : GoStr) (hne : p' ≠ p) :
    (fsWriteAux l p c).find? (fun q => q.1 == p') = l.find? (fun q => q.1 == p') := by
  have hb : (p == p') = false := beq_eq_false_iff_ne.mpr (Ne.symm hne)
  induction l with
  | nil =>
    simp [fsWriteAux, List.find?, hb]
  | cons q rest ih =>
    by_cases h : q.1 = p
    · have hq : ¬(q.1 = p') := by rw [h]; exact Ne.symm hne
      simp [fsWriteAux, h, List.find?, hb, hq]
    · simp only [fsWriteAux, if_neg h]
      by_cases h' : q.1 = p'
      · simp [List.find?, h']
      · rw [List.find?_cons_of_neg _ (by simpa using h'),
          List.find?_cons_of_neg _ (by simpa using h')]
        exact ih

theorem read_write_same (fs : FS) (p : List String) (c : GoStr) :
    fsReadFile (createAndWriteFile fs p c) p = some c := by
  simp [fsReadFile, createAndWriteFile, fsWriteAux_read_same]

theorem read_write_other (fs : FS) (p p' : List String) (c : GoStr) (hne : p' ≠ p) :
    fsReadFile (createAndWriteFile fs p c) p' = fsReadFile fs p' := by
  simp [fsReadFile, createAndWriteFile, fsWriteAux_read_other _ _ _ _ hne]

theorem read_mkdirAll (fs : FS) (d p : List String) :
    fsReadFile (fsMkdirAll fs d) p = fsReadFile fs p := rfl

theorem append_singleton_ne {α : Type} (l : List α) (a b : α) (h : a ≠ b) :
    l ++ [a] ≠ l ++ [b] := by
  intro hcontra
  exact h (by simpa using List.append_cancel_left hcontra)

/-! ## Clear lemmas -/

theorem isPrefixOf_append (l m : List String) : l.isPrefixOf (l ++ m) = true := by
  induction l with
  | nil => simp [List.isPrefixOf]
  | cons x xs ih => simp [List.isPrefixOf, ih]

theorem find?_clear_none (root : List String) (p : List String)
    (hp : root.isPrefixOf p = true) (l : List (List String × Option GoStr)) :
    (l.filter (fun q => !(root.isPrefixOf q.1))).find? (fun q => q.1 == p) = none := by
  induction l with
  | nil => simp
  | cons q rest ih =>
    by_cases hk : root.isPrefixOf q.1
    · simpa [List.filter, hk] using ih
    · have hq : ¬(q.1 = p) := by
        intro he; rw [he] at hk; exact hk hp
      simp only [List.filter, hk, Bool.not_false]
      rw [List.find?_cons_of_neg _ (by simpa using hq)]
      exact ih

theorem readFile_clear (dc : DeskCache) (fs : FS) (p : List String)
    (hp : dc.DirPath.isPrefixOf p = true) :
    fsReadFile (DeskCache.Clear dc fs) p = none := by
  simp [fsReadFile, DeskCache.Clear, find?_clear_none _ _ hp]

theorem filter_idem {α : Type} (p : α → Bool) (l : List α) :
    (l.filter p).filter p = l.filter p := by
  induction l with
  | nil => rfl
  | cons x xs ih =>
    by_cases h : p x
    · simp [List.filter, h, ih]
    · simp [List.filter, h, ih]

/-! ## splitOnChar lemmas -/

theorem splitOnChar_ne_nil (sep : Char) (l : List Char) : splitOnChar sep l ≠ [] := by
  induction l with
  | nil => simp [splitOnChar]
  | cons c cs ih =>
    by_cases h : c = sep
    · simp [splitOnChar, h]
    · simp only [splitOnChar, if_neg h]
      cases hs : splitOnChar sep cs with
      | nil => simp
      | cons r rs => simp

theorem splitOnChar_no_sep (sep : Char) (l : List Char) (h : sep ∉ l) :
    splitOnChar sep l = [l] := by
  induction l with
  | nil => rfl
  | cons c cs ih =>
    have hc : ¬(c = sep) := fun he => h (he ▸ List.mem_cons_self c cs)
    have hcs : sep ∉ cs := fun hm => h (List.mem_cons_of_mem c hm)
    simp only [splitOnChar, if_neg hc, ih hcs]

theorem splitOnChar_sep_cons (sep : Char) (l rest : List Char) (h : sep ∉ l) :
    splitOnChar sep (l ++ sep :: rest) = l :: splitOnChar sep rest := by
  induction l with
  | nil => simp [splitOnChar]
  | cons c cs ih =>
    have hc : ¬(c = sep) := fun he => h (he ▸ List.mem_cons_self c cs)
    have hcs : sep ∉ cs := fun hm => h (List.mem_cons_of_mem c hm)
    simp only [List.cons_append, splitOnChar, if_neg hc, List.append_eq, ih hcs]

/-! ## Header construction and parsing lemmas -/

theorem foldl_congr_fun {α β : Type} (l : List α) (f g : β → α → β) (b : β)
    (h : ∀ b' x, x ∈ l → f b' x = g b' x) : l.foldl f b = l.foldl g b := by
  induction l generalizing b with
  | nil => rfl
  | cons x xs ih =>
    simp only [List.foldl_cons, h b x (List.mem_cons_self x xs)]
    exact ih _ (fun b' y hy => h b' y (List.mem_cons_of_mem x hy))

theorem foldl_append_accum {α β : Type} (f : β → List α) (l : List β) (acc : List α) :
    l.foldl (fun a x => a ++ f x) acc = acc ++ (l.map f).flatten := by
  induction l generalizing acc with
  | nil => simp
  | cons x xs ih => simp [ih, List.append_assoc]

/-- One serialized header line, without its trailing newline. -/
def headerLine (kv : GoStr × List GoStr) : GoStr :=
  kv.1 ++ (kv.2.map (fun v => ',' :: v)).flatten

theorem headersFileContent_eq (hs : Header) :
    headersFileContent hs = (hs.map (fun kv => headerLine kv ++ ['\n'])).flatten := by
  unfold headersFileContent
  have h1 : ∀ kv : GoStr × List GoStr,
      kv.2.foldl (fun a v => a ++ ',' :: v) [] = (kv.2.map (fun v => ',' :: v)).flatten := by
    intro kv
    simpa using foldl_append_accum (fun v => ',' :: v) kv.2 []
  calc hs.foldl (fun acc kv => acc ++ kv.1 ++ kv.2.foldl (fun a v => a ++ ',' :: v) [] ++ ['\n']) []
      = hs.foldl (fun acc kv => acc ++ (headerLine kv ++ ['\n'])) [] := by
        apply foldl_congr_fun
        intro a kv _
        simp [h1 kv, headerLine, List.append_assoc]
    _ = (hs.map (fun kv => headerLine kv ++ ['\n'])).flatten := by
        simpa using foldl_append_accum (fun kv => headerLine kv ++ ['\n']) hs []

theorem intercalate_comma (k : GoStr) (vs : List GoStr) :
    List.intercalate [','] (k :: vs) = headerLine (k, vs) := by
  unfold headerLine
  induction vs generalizing k with
  | nil => simp [List.intercalate, List.intersperse]
  | cons v vs ih =>
    simp only [List.intercalate] at ih
    simp only [List.intercalate, List.intersperse, List.flatten, List.map, List.cons_append]
    simp [ih v, List.append_assoc]

theorem specHeadersFile_eq (hs : Header) : specHeadersFile hs = headersFileContent hs := by
  rw [headersFileContent_eq]
  unfold specHeadersFile
  congr 1
  apply List.map_congr_left
  intro kv _
  congr 1
  exact intercalate_comma kv.1 kv.2

theorem perLine_nil (h : Header) : perLine h [] = h := rfl

theorem addRaw_fresh (h : Header) (k v : GoStr) (hk : k ∉ h.map Prod.fst) :
    Header.addRaw h k v = h ++ [(k, [v])] := by
  induction h with
  | nil => rfl
  | cons kv rest ih =>
    have h1 : ¬(kv.1 = k) := by
      intro he; exact hk (by simp [he])
    have h2 : k ∉ rest.map Prod.fst := fun hm => hk (by simp [hm])
    simp [Header.addRaw, h1, ih h2]

theorem addRaw_last (h : Header) (k v : GoStr) (ws : List GoStr)
    (hk : k ∉ h.map Prod.fst) :
    Header.addRaw (h ++ [(k, ws)]) k v = h ++ [(k, ws ++ [v])] := by
  induction h with
  | nil => simp [Header.addRaw]
  | cons kv rest ih =>
    have h1 : ¬(kv.1 = k) := by
      intro he; exact hk (by simp [he])
    have h2 : k ∉ rest.map Prod.fst := fun hm => hk (by simp [hm])
    simp [Header.addRaw, h1, ih h2]

theorem foldl_addRaw_last (h : Header) (k : GoStr) (ws : List GoStr) (vs : List GoStr)
    (hk : k ∉ h.map Prod.fst) :
    vs.foldl (fun hh v => Header.addRaw hh k v) (h ++ [(k, ws)]) = h ++ [(k, ws ++ vs)] := by
  induction vs generalizing ws with
  | nil => simp
  | cons v vs ih =>
    simp only [List.foldl_cons, addRaw_last h k v ws hk, ih (ws ++ [v])]
    simp

theorem foldl_addRaw_fresh (h : Header) (k : GoStr) (vs : List GoStr)
    (hk : k ∉ h.map Prod.fst) (hne : vs ≠ []) :
    vs.foldl (fun hh v => Header.addRaw hh k v) h = h ++ [(k, vs)] := by
  cases vs with
  | nil => exact absurd rfl hne
  | cons v vs =>
    simp only [List.foldl_cons, addRaw_fresh h k v hk]
    exact foldl_addRaw_last h k [v] vs hk

theorem headerLine_cons (k v : GoStr) (vs : List GoStr) :
    headerLine (k, v :: vs) = k ++ ',' :: headerLine (v, vs) := by
  simp [headerLine, List.append_assoc]

theorem split_headerLine (k : GoStr) (vs : List GoStr) (hk : ',' ∉ k)
    (hvs : ∀ v ∈ vs, ',' ∉ v) :
    splitOnChar ',' (headerLine (k, vs)) = k :: vs := by
  induction vs generalizing k with
  | nil =>
    have : headerLine (k, []) = k := by simp [headerLine]
    rw [this, splitOnChar_no_sep _ _ hk]
  | cons v vs ih =>
    rw [headerLine_cons, splitOnChar_sep_cons _ _ _ hk,
      ih v (hvs v (List.mem_cons_self v vs)) (fun w hw => hvs w (List.mem_cons_of_mem v hw))]

theorem not_mem_headerLine (c : Char) (k : GoStr) (vs : List GoStr) (hc : c ≠ ',')
    (hk : c ∉ k) (hv : ∀ v ∈ vs, c ∉ v) : c ∉ headerLine (k, vs) := by
  intro hmem
  simp only [headerLine, List.mem_append, List.mem_flatten, List.mem_map] at hmem
  rcases hmem with h1 | ⟨l, ⟨v, hvmem, rfl⟩, h3⟩
  · exact hk h1
  · rcases List.mem_cons.mp h3 with rfl | h4
    · exact hc rfl
    · exact hv v hvmem h4

theorem perLine_wf_line (acc : Header) (k : GoStr) (vs : List GoStr)
    (hcanon : canonicalMIMEHeaderKey k = k) (hk : ',' ∉ k)
    (hvs : ∀ v ∈ vs, ',' ∉ v) (hne : vs ≠ []) (hfresh : k ∉ acc.map Prod.fst) :
    perLine acc (headerLine (k, vs)) = acc ++ [(k, vs)] := by
  unfold perLine
  rw [split_headerLine k vs hk hvs]
  have : ∀ hh v, Header.add hh k v = Header.addRaw hh k v := by
    intro hh v; unfold Header.add; rw [hcanon]
  calc vs.foldl (fun hh v => Header.add hh k v) acc
      = vs.foldl (fun hh v => Header.addRaw hh k v) acc := by
        apply foldl_congr_fun
        intro hh v _
        exact this hh v
    _ = acc ++ [(k, vs)] := foldl_addRaw_fresh acc k vs hfresh hne

theorem parse_lines_build (hs : Header) (acc : Header)
    (hnd : (hs.map Prod.fst).Nodup)
    (hfresh : ∀ kv ∈ hs, kv.1 ∉ acc.map Prod.fst)
    (hwf : ∀ kv ∈ hs, canonicalMIMEHeaderKey kv.1 = kv.1 ∧ ',' ∉ kv.1 ∧
      kv.2 ≠ [] ∧ ∀ v ∈ kv.2, ',' ∉ v) :
    (hs.map headerLine).foldl perLine acc = acc ++ hs := by
  induction hs generalizing acc with
  | nil => simp
  | cons kv rest ih =>
    obtain ⟨hcanon, hkcomma, hne, hvcomma⟩ := hwf kv (List.mem_cons_self kv rest)
    have hstep : perLine acc (headerLine kv) = acc ++ [kv] := by
      obtain ⟨k, vs⟩ := kv
      exact perLine_wf_line acc k vs hcanon hkcomma hvcomma hne
        (hfresh (k, vs) (List.mem_cons_self _ rest))
    simp only [List.map_cons, List.foldl_cons, hstep]
    have hnd' : (rest.map Prod.fst).Nodup := (List.nodup_cons.mp hnd).2
    have hknotin : kv.1 ∉ rest.map Prod.fst := (List.nodup_cons.mp hnd).1
    have hfresh' : ∀ kv' ∈ rest, kv'.1 ∉ (acc ++ [kv]).map Prod.fst := by
      intro kv' hmem
      simp only [List.map_append, List.mem_append, List.map_cons, List.map_nil,
        List.mem_singleton]
      rintro (h1 | h2)
      · exact hfresh kv' (List.mem_cons_of_mem kv hmem) h1
      · exact hknotin (h2 ▸ List.mem_map_of_mem Prod.fst hmem)
    rw [ih (acc ++ [kv]) hnd' hfresh'
      (fun kv' hmem => hwf kv' (List.mem_cons_of_mem kv hmem))]
    simp

theorem split_content (hs : Header) (hnl : ∀ kv ∈ hs, '\n' ∉ headerLine kv) :
    splitOnChar '\n' ((hs.map (fun kv => headerLine kv ++ ['\n'])).flatten)
    = hs.map headerLine ++ [[]] := by
  induction hs with
  | nil => rfl
  | cons kv rest ih =>
    have : (((kv :: rest).map (fun kv => headerLine kv ++ ['\n'])).flatten)
        = headerLine kv ++ '\n' :: ((rest.map (fun kv => headerLine kv ++ ['\n'])).flatten) := by
      simp [List.append_assoc]
    rw [this, splitOnChar_sep_cons _ _ _ (hnl kv (List.mem_cons_self kv rest)),
      ih (fun kv' hmem => hnl kv' (List.mem_cons_of_mem kv hmem))]
    simp

theorem parseHeaders_roundtrip (hs : Header) (hwf : HeaderWF hs) :
    parseHeaders (headersFileContent hs) = hs := by
  obtain ⟨hnd, hprops⟩ := hwf
  rw [headersFileContent_eq]
  unfold parseHeaders parseHeaderLines
  rw [split_content hs (by
    intro kv hmem
    obtain ⟨_, _, hnlk, _, hvals⟩ := hprops kv hmem
    exact not_mem_headerLine '\n' kv.1 kv.2 (by decide) hnlk
      (fun v hv => (hvals v hv).2))]
  rw [List.foldl_append]
  rw [parse_lines_build hs [] hnd (by simp) (by
    intro kv hmem
    obtain ⟨hc, hcomma, _, hne, hvals⟩ := hprops kv hmem
    exact ⟨hc, hcomma, hne, fun v hv => (hvals v hv).1⟩)]
  simp [perLine_nil]

/-! ## Atoi / Itoa round-trip -/

theorem natToRev_eq_digits (fuel n : Nat) (h : n ≤ fuel) :
    natToRev fuel n = Nat.digits 10 n := by
  induction fuel generalizing n with
  | zero =>
    interval_cases n
    simp [natToRev]
  | succ f ih =>
    cases n with
    | zero => simp [natToRev]
    | succ m =>
      rw [natToRev, Nat.digits_def' (by norm_num : (1:Nat) < 10) (Nat.succ_pos m)]
      congr 1
      apply ih
      have h1 : (m + 1) / 10 < m + 1 := Nat.div_lt_self (Nat.succ_pos m) (by norm_num)
      omega

theorem digitChar_toNat (d : Nat) (h : d < 10) : (Nat.digitChar d).toNat = 48 + d := by
  interval_cases d <;> rfl

theorem digitChar_isDigit (d : Nat) (h : d < 10) : (Nat.digitChar d).isDigit = true := by
  interval_cases d <;> rfl

theorem digitsVal_digits (L : List Nat) (h : ∀ d ∈ L, d < 10) :
    digitsVal ((L.map Nat.digitChar).reverse) = Nat.ofDigits 10 L := by
  induction L with
  | nil => rfl
  | cons d L ih =>
    have hd : d < 10 := h d (List.mem_cons_self d L)
    have hL : ∀ x ∈ L, x < 10 := fun x hx => h x (List.mem_cons_of_mem d hx)
    simp only [List.map_cons, List.reverse_cons]
    unfold digitsVal
    rw [List.foldl_append]
    have hfold : (L.map Nat.digitChar).reverse.foldl (fun a c => 10 * a + (c.toNat - 48)) 0
        = Nat.ofDigits 10 L := ih hL
    unfold digitsVal at hfold
    rw [hfold]
    simp only [List.foldl_cons, List.foldl_nil, digitChar_toNat d hd]
    rw [Nat.ofDigits_cons]
    omega

theorem goNatRepr_pos (n : Nat) (h : 0 < n) :
    goNatRepr n = ((Nat.digits 10 n).map Nat.digitChar).reverse := by
  unfold goNatRepr
  rw [if_neg (Nat.pos_iff_ne_zero.mp h), natToRev_eq_digits n n le_rfl]

theorem goNatRepr_all_digits (n : Nat) : goNatRepr n.succ.pred = goNatRepr n := rfl

theorem goNatRepr_digits_only (n : Nat) : (goNatRepr n).all Char.isDigit = true := by
  by_cases h : n = 0
  · subst h; rfl
  · rw [goNatRepr_pos n (Nat.pos_of_ne_zero h)]
    simp only [List.all_eq_true, List.mem_reverse, List.mem_map]
    rintro c ⟨d, hd, rfl⟩
    exact digitChar_isDigit d (Nat.digits_lt_base (by norm_num) hd)

theorem goNatRepr_ne_nil (n : Nat) : goNatRepr n ≠ [] := by
  by_cases h : n = 0
  · subst h; simp [goNatRepr]
  · rw [goNatRepr_pos n (Nat.pos_of_ne_zero h)]
    simp [Nat.digits_ne_nil_iff_ne_zero.mpr h]

theorem digitsVal_goNatRepr (n : Nat) : digitsVal (goNatRepr n) = n := by
  by_cases h : n = 0
  · subst h; rfl
  · rw [goNatRepr_pos n (Nat.pos_of_ne_zero h),
      digitsVal_digits _ (fun d hd => Nat.digits_lt_base (by norm_num) hd),
      Nat.ofDigits_digits]

theorem stripSign_digits (cs : List Char) (h : cs.all Char.isDigit = true) (hne : cs ≠ []) :
    stripSign cs = (false, cs) := by
  cases cs with
  | nil => exact absurd rfl hne
  | cons c rest =>
    have hc : c.isDigit = true := by
      simp only [List.all_eq_true] at h
      exact h c (List.mem_cons_self c rest)
    have h1 : ¬(c = '-') := by intro he; rw [he] at hc; exact absurd hc (by decide)
    have h2 : ¬(c = '+') := by intro he; rw [he] at hc; exact absurd hc (by decide)
    simp [stripSign, h1, h2]

theorem goAtoi_digits (cs : List Char) (h : cs.all Char.isDigit = true) (hne : cs ≠ []) :
    goAtoi cs = clampInt64 (digitsVal cs) := by
  unfold goAtoi goAtoiSyntaxOk
  rw [stripSign_digits cs h hne]
  simp [h, hne]

theorem atoi_itoa (i : Int) (hlo : -9223372036854775808 ≤ i)
    (hhi : i ≤ 9223372036854775807) : goAtoi (goItoa i) = i := by
  by_cases hneg : i < 0
  · unfold goItoa
    rw [if_pos hneg]
    have hd := goNatRepr_digits_only i.natAbs
    have hne := goNatRepr_ne_nil i.natAbs
    unfold goAtoi goAtoiSyntaxOk
    have hstrip : stripSign ('-' :: goNatRepr i.natAbs) = (true, goNatRepr i.natAbs) := by
      simp [stripSign]
    rw [hstrip]
    simp only [hd, Bool.and_true, Bool.not_eq_true']
    rw [if_pos (by simpa using hne)]
    rw [digitsVal_goNatRepr]
    unfold clampInt64
    simp only [if_true]
    have h1 : (-1 : Int) * i.natAbs = i := by omega
    rw [h1, if_neg (by omega), if_neg (by omega)]
  · unfold goItoa
    rw [if_neg hneg]
    rw [goAtoi_digits _ (goNatRepr_digits_only i.natAbs) (goNatRepr_ne_nil i.natAbs)]
    rw [digitsVal_goNatRepr]
    unfold clampInt64
    have h1 : (i.natAbs : Int) = i := by omega
    rw [h1, if_neg (by omega), if_neg (by omega)]

/-! ## Reading back a freshly stored entry -/

theorem statusPath_eq (dc : DeskCache) (key : String) :
    dc.DirPath ++ [key, "status"] = (dc.DirPath ++ [key]) ++ ["status"] := by
  simp

theorem headersPath_eq (dc : DeskCache) (key : String) :
    dc.DirPath ++ [key, "headers"] = (dc.DirPath ++ [key]) ++ ["headers"] := by
  simp

theorem bodyPath_eq (dc : DeskCache) (key : String) :
    dc.DirPath ++ [key, "body"] = (dc.DirPath ++ [key]) ++ ["body"] := by
  simp

theorem set_reads_status (dc : DeskCache) (fs : FS) (key : String) (e : CacheEntry) :
    fsReadFile (DeskCache.Set dc fs key e) (dc.DirPath ++ [key, "status"])
    = some (goItoa e.StatusCode) := by
  unfold DeskCache.Set storeEntryData
  rw [statusPath_eq,
    read_write_other _ _ _ _ (append_singleton_ne _ _ _ (by decide)),
    read_write_other _ _ _ _ (append_singleton_ne _ _ _ (by decide)),
    read_write_same]

theorem set_reads_headers (dc : DeskCache) (fs : FS) (key : String) (e : CacheEntry) :
    fsReadFile (DeskCache.Set dc fs key e) (dc.DirPath ++ [key, "headers"])
    = some (headersFileContent e.Headers) := by
  unfold DeskCache.Set storeEntryData
  rw [headersPath_eq,
    read_write_other _ _ _ _ (append_singleton_ne _ _ _ (by decide)),
    read_write_same]

theorem set_reads_body (dc : DeskCache) (fs : FS) (key : String) (e : CacheEntry) :
    fsReadFile (DeskCache.Set dc fs key e) (dc.DirPath ++ [key, "body"])
    = some e.Body := by
  unfold DeskCache.Set storeEntryData
  rw [bodyPath_eq, read_write_same]

theorem get_of_reads (dc : DeskCache) (fs : FS) (key : String) (s h b : GoStr)
    (hs : fsReadFile fs (dc.DirPath ++ [key, "status"]) = some s)
    (hh : fsReadFile fs (dc.DirPath ++ [key, "headers"]) = some h)
    (hb : fsReadFile fs (dc.DirPath ++ [key, "body"]) = some b) :
    DeskCache.Get dc fs key
    = some { StatusCode := goAtoi s, Headers := parseHeaders h, Body := b } := by
  unfold DeskCache.Get
  rw [hs, hh, hb]

theorem self_mem_listAncestors (p : List String) : p ∈ listAncestors p := by
  induction p with
  | nil => simp [listAncestors]
  | cons x xs ih => simp [listAncestors, ih]

/-! ## Claim theorems -/

/-- C1, counterexample: for the entry with header `X-Foo: a,b` (a single
value containing a comma), `Set` then `Get` returns the entry with the two
values `a` and `b` instead — the round-trip does not hold for arbitrary
header multimaps. -/
theorem C1_comma_value_cex :
    DeskCache.Get ⟨["root"], 3600⟩
      (DeskCache.Set ⟨["root"], 3600⟩ ⟨[], [["root"]]⟩ "GET-/users"
        ⟨200, [], [("X-Foo".toList, ["a,b".toList])]⟩) "GET-/users"
      = some ⟨200, [], [("X-Foo".toList, ["a".toList, "b".toList])]⟩ ∧
    (⟨200, [], [("X-Foo".toList, ["a,b".toList])]⟩ : CacheEntry)
      ≠ ⟨200, [], [("X-Foo".toList, ["a".toList, "b".toList])]⟩ :=
  ⟨by decide, by decide⟩

/-- C1 (amended): round-trip through the disk backend — `Set(key, entry)`
followed immediately by `Get(key)` returns the entry unchanged (status
code, body, and headers with value order preserved) for every entry whose
status code fits in a signed 64-bit integer and whose header multimap is
well-formed: distinct canonical names free of comma and newline, each with
a nonempty list of values free of comma and newline. -/
theorem C1_roundtrip_amended (dc : DeskCache) (fs : FS) (key : String) (e : CacheEntry)
    (hwf : HeaderWF e.Headers)
    (hlo : -9223372036854775808 ≤ e.StatusCode) (hhi : e.StatusCode ≤ 9223372036854775807) :
    DeskCache.Get dc (DeskCache.Set dc fs key e) key = some e := by
  rw [get_of_reads dc _ key _ _ _ (set_reads_status dc fs key e)
    (set_reads_headers dc fs key e) (set_reads_body dc fs key e)]
  rw [atoi_itoa e.StatusCode hlo hhi, parseHeaders_roundtrip e.Headers hwf]

/-- Witness for C1 (amended) at a concrete entry. -/
theorem C1_roundtrip_witness :
    (HeaderWF [("X-Foo".toList, ["bar".toList, "baz".toList])] ∧
      -9223372036854775808 ≤ (200 : Int) ∧ (200 : Int) ≤ 9223372036854775807) ∧
    DeskCache.Get ⟨["root"], 3600⟩
      (DeskCache.Set ⟨["root"], 3600⟩ ⟨[], [["root"]]⟩ "GET-/users"
        ⟨200, "hi".toList, [("X-Foo".toList, ["bar".toList, "baz".toList])]⟩) "GET-/users"
      = some ⟨200, "hi".toList, [("X-Foo".toList, ["bar".toList, "baz".toList])]⟩ :=
  ⟨⟨by decide, by decide, by decide⟩,
    C1_roundtrip_amended ⟨["root"], 3600⟩ ⟨[], [["root"]]⟩ "GET-/users"
      ⟨200, "hi".toList, [("X-Foo".toList, ["bar".toList, "baz".toList])]⟩
      (by decide) (by decide) (by decide)⟩

/-- C2: if any one of the three files `status`, `headers`, `body` under
the key's directory is missing or unreadable, `DeskCache.Get` returns
not-found (`none`); no partial entry and no error is ever returned (the
return type `Option CacheEntry` has no error channel). -/
theorem C2_partial_miss (dc : DeskCache) (fs : FS) (key : String)
    (h : fsReadFile fs (dc.DirPath ++ [key, "status"]) = none ∨
         fsReadFile fs (dc.DirPath ++ [key, "headers"]) = none ∨
         fsReadFile fs (dc.DirPath ++ [key, "body"]) = none) :
    DeskCache.Get dc fs key = none := by
  rcases h with h | h | h
  · simp [DeskCache.Get, h]
  · cases hs : fsReadFile fs (dc.DirPath ++ [key, "status"]) <;>
      simp [DeskCache.Get, hs, h]
  · cases hs : fsReadFile fs (dc.DirPath ++ [key, "status"]) <;>
      cases hh : fsReadFile fs (dc.DirPath ++ [key, "headers"]) <;>
      simp [DeskCache.Get, hs, hh, h]

/-- Witness for C2: `status` and `body` exist, `headers` is present but
unreadable — `Get` misses. -/
theorem C2_partial_miss_witness :
    (fsReadFile ⟨[(["root", "k", "status"], some "200".toList),
        (["root", "k", "headers"], none), (["root", "k", "body"], some [])], [["root"]]⟩
      (["root"] ++ ["k", "status"]) = none ∨
     fsReadFile ⟨[(["root", "k", "status"], some "200".toList),
        (["root", "k", "headers"], none), (["root", "k", "body"], some [])], [["root"]]⟩
      (["root"] ++ ["k", "headers"]) = none ∨
     fsReadFile ⟨[(["root", "k", "status"], some "200".toList),
        (["root", "k", "headers"], none), (["root", "k", "body"], some [])], [["root"]]⟩
      (["root"] ++ ["k", "body"]) = none) ∧
    DeskCache.Get ⟨["root"], 3600⟩
      ⟨[(["root", "k", "status"], some "200".toList),
        (["root", "k", "headers"], none), (["root", "k", "body"], some [])], [["root"]]⟩
      "k" = none :=
  ⟨by decide, C2_partial_miss ⟨["root"], 3600⟩ _ "k" (by decide)⟩

/-- C3: the disk backend enforces no expiry — `Get` is independent of the
configured TTL, and whenever the three files are present and readable it
returns found; the embedding of `Get` consults no clock, so the result
cannot depend on elapsed time. -/
theorem C3_no_expiry (d : List String) (t t' : Int) (fs : FS) (key : String)
    (s h b : GoStr)
    (hs : fsReadFile fs (d ++ [key, "status"]) = some s)
    (hh : fsReadFile fs (d ++ [key, "headers"]) = some h)
    (hb : fsReadFile fs (d ++ [key, "body"]) = some b) :
    DeskCache.Get ⟨d, t⟩ fs key = DeskCache.Get ⟨d, t'⟩ fs key ∧
    (DeskCache.Get ⟨d, t⟩ fs key).isSome = true := by
  refine ⟨rfl, ?_⟩
  rw [get_of_reads ⟨d, t⟩ fs key s h b hs hh hb]
  rfl

/-- Witness for C3 at a concrete store. -/
theorem C3_no_expiry_witness :
    (fsReadFile ⟨[(["root", "k", "status"], some "200".toList),
        (["root", "k", "headers"], some []), (["root", "k", "body"], some [])], [["root"]]⟩
      (["root"] ++ ["k", "status"]) = some "200".toList) ∧
    DeskCache.Get ⟨["root"], 0⟩
      ⟨[(["root", "k", "status"], some "200".toList),
        (["root", "k", "headers"], some []), (["root", "k", "body"], some [])], [["root"]]⟩ "k"
    = DeskCache.Get ⟨["root"], 999999⟩
      ⟨[(["root", "k", "status"], some "200".toList),
        (["root", "k", "headers"], some []), (["root", "k", "body"], some [])], [["root"]]⟩ "k" ∧
    (DeskCache.Get ⟨["root"], 0⟩
      ⟨[(["root", "k", "status"], some "200".toList),
        (["root", "k", "headers"], some []), (["root", "k", "body"], some [])], [["root"]]⟩
      "k").isSome = true :=
  ⟨by decide,
    (C3_no_expiry ["root"] 0 999999 _ "k" "200".toList [] []
      (by decide) (by decide) (by decide)).1,
    (C3_no_expiry ["root"] 0 999999 _ "k" "200".toList [] []
      (by decide) (by decide) (by decide)).2⟩

/-- C4: `Set(key, entry)` writes exactly three files under the directory
named by the key — `status` holding the decimal string of the status code,
`headers` holding one newline-terminated line per header name of the form
`name,value1,value2,...` (the comma-join of the name and its values, no
escaping), and `body` holding the raw body bytes; every other path of the
filesystem is untouched. -/
theorem C4_serialization (dc : DeskCache) (fs : FS) (key : String) (e : CacheEntry) :
    fsReadFile (DeskCache.Set dc fs key e) (dc.DirPath ++ [key, "status"])
      = some (goItoa e.StatusCode) ∧
    fsReadFile (DeskCache.Set dc fs key e) (dc.DirPath ++ [key, "headers"])
      = some (specHeadersFile e.Headers) ∧
    fsReadFile (DeskCache.Set dc fs key e) (dc.DirPath ++ [key, "body"])
      = some e.Body ∧
    (dc.DirPath ++ [key]) ∈ (DeskCache.Set dc fs key e).dirs ∧
    ∀ p : List String, p ≠ dc.DirPath ++ [key, "status"] →
      p ≠ dc.DirPath ++ [key, "headers"] → p ≠ dc.DirPath ++ [key, "body"] →
      fsReadFile (DeskCache.Set dc fs key e) p = fsReadFile fs p := by
  refine ⟨set_reads_status dc fs key e, ?_, set_reads_body dc fs key e, ?_, ?_⟩
  · rw [set_reads_headers dc fs key e, specHeadersFile_eq]
  · show (dc.DirPath ++ [key]) ∈ (DeskCache.Set dc fs key e).dirs
    unfold DeskCache.Set storeEntryData createAndWriteFile fsMkdirAll
    simp only [List.mem_append]
    exact Or.inl (self_mem_listAncestors _)
  · intro p hps hph hpb
    rw [statusPath_eq] at hps
    rw [headersPath_eq] at hph
    rw [bodyPath_eq] at hpb
    unfold DeskCache.Set storeEntryData
    rw [read_write_other _ _ _ _ hpb, read_write_other _ _ _ _ hph,
      read_write_other _ _ _ _ hps, read_mkdirAll]

/-- Witness for C4: the frame property at a path outside the entry
directory, at a concrete store. -/
theorem C4_serialization_witness :
    fsReadFile (DeskCache.Set ⟨["root"], 3600⟩
        ⟨[(["other"], some "x".toList)], [["root"]]⟩ "k" ⟨200, [], []⟩) (["other"])
      = fsReadFile ⟨[(["other"], some "x".toList)], [["root"]]⟩ (["other"]) :=
  (C4_serialization ⟨["root"], 3600⟩ ⟨[(["other"], some "x".toList)], [["root"]]⟩ "k"
    ⟨200, [], []⟩).2.2.2.2 ["other"] (by decide) (by decide) (by decide)

/-- C5: `Clear` removes the backend's entire root directory: afterwards
`Get` misses for every key, and `Clear` is idempotent — clearing an
already-cleared (hence empty/absent) root yields the same state, and the
embedding of `RemoveAll` is total, so no error is possible. -/
theorem C5_clear (dc : DeskCache) (fs : FS) :
    (∀ key : String, DeskCache.Get dc (DeskCache.Clear dc fs) key = none) ∧
    DeskCache.Clear dc (DeskCache.Clear dc fs) = DeskCache.Clear dc fs := by
  constructor
  · intro key
    have hp : dc.DirPath.isPrefixOf (dc.DirPath ++ [key, "status"]) = true :=
      isPrefixOf_append _ _
    have hread := readFile_clear dc fs _ hp
    simp [DeskCache.Get, hread]
  · unfold DeskCache.Clear
    simp [filter_idem]

/-- Witness for C5 at a concrete populated store. -/
theorem C5_clear_witness :
    DeskCache.Get ⟨["root"], 3600⟩
      (DeskCache.Clear ⟨["root"], 3600⟩
        ⟨[(["root", "k", "status"], some "200".toList),
          (["root", "k", "headers"], some []),
          (["root", "k", "body"], some [])], [["root"], ["root", "k"]]⟩) "k" = none :=
  (C5_clear ⟨["root"], 3600⟩ _).1 "k"

/-- C6: best-effort header parsing — a line with no comma (one that does
not parse as a header record) contributes nothing: parsing with it gives
the same header multimap as parsing without it, all other lines still
being reconstructed; and a `Get` whose three files are readable returns
found regardless of the headers file's content, so no line can fail the
whole `Get`. -/
theorem C6_best_effort (dc : DeskCache) (fs : FS) (key : String)
    (ls1 ls2 : List GoStr) (m : GoStr) (hm : ',' ∉ m)
    (s h b : GoStr)
    (hs : fsReadFile fs (dc.DirPath ++ [key, "status"]) = some s)
    (hh : fsReadFile fs (dc.DirPath ++ [key, "headers"]) = some h)
    (hb : fsReadFile fs (dc.DirPath ++ [key, "body"]) = some b) :
    parseHeaderLines (ls1 ++ m :: ls2) = parseHeaderLines (ls1 ++ ls2) ∧
    (DeskCache.Get dc fs key).isSome = true := by
  constructor
  · have hdrop : ∀ A : Header, perLine A m = A := by
      intro A
      unfold perLine
      rw [splitOnChar_no_sep ',' m hm]
      rfl
    unfold parseHeaderLines
    simp [List.foldl_append, hdrop]
  · rw [get_of_reads dc fs key s h b hs hh hb]
    rfl

/-- Witness for C6: dropping the malformed line `garbage` leaves the parse
of the well-formed `X-Foo,bar` line intact, at a concrete store. -/
theorem C6_best_effort_witness :
    (',' ∉ "garbage".toList) ∧
    parseHeaderLines (["X-Foo,bar".toList] ++ "garbage".toList :: []) =
      parseHeaderLines (["X-Foo,bar".toList] ++ []) ∧
    (DeskCache.Get ⟨["root"], 3600⟩
      ⟨[(["root", "k", "status"], some "200".toList),
        (["root", "k", "headers"], some "X-Foo,bar\ngarbage\n".toList),
        (["root", "k", "body"], some [])], [["root"]]⟩ "k").isSome = true :=
  ⟨by decide,
    (C6_best_effort ⟨["root"], 3600⟩
      ⟨[(["root", "k", "status"], some "200".toList),
        (["root", "k", "headers"], some "X-Foo,bar\ngarbage\n".toList),
        (["root", "k", "body"], some [])], [["root"]]⟩ "k"
      ["X-Foo,bar".toList] [] "garbage".toList (by decide)
      "200".toList "X-Foo,bar\ngarbage\n".toList []
      (by decide) (by decide) (by decide)).1,
    (C6_best_effort ⟨["root"], 3600⟩
      ⟨[(["root", "k", "status"], some "200".toList),
        (["root", "k", "headers"], some "X-Foo,bar\ngarbage\n".toList),
        (["root", "k", "body"], some [])], [["root"]]⟩ "k"
      ["X-Foo,bar".toList] [] "garbage".toList (by decide)
      "200".toList "X-Foo,bar\ngarbage\n".toList []
      (by decide) (by decide) (by decide)).2⟩

/-- C7: the cache key is exactly `"<METHOD>-<PATH>"`, computed
deterministically from the request's method and path alone; two requests
differing only in their query string map to the same key. -/
theorem C7_cache_key (m p q q' : String) :
    cacheKey ⟨m, p, q⟩ = m ++ "-" ++ p ∧ cacheKey ⟨m, p, q⟩ = cacheKey ⟨m, p, q'⟩ :=
  ⟨rfl, rfl⟩

/-- C9: a readable `status` file whose content is not a valid decimal
integer yields found with `StatusCode = 0` — the `Atoi` error is
discarded, never turned into a miss (the other two files being
readable). -/
theorem C9_invalid_status_zero (dc : DeskCache) (fs : FS) (key : String)
    (s h b : GoStr)
    (hs : fsReadFile fs (dc.DirPath ++ [key, "status"]) = some s)
    (hinv : goAtoiSyntaxOk s = false)
    (hh : fsReadFile fs (dc.DirPath ++ [key, "headers"]) = some h)
    (hb : fsReadFile fs (dc.DirPath ++ [key, "body"]) = some b) :
    DeskCache.Get dc fs key
    = some { StatusCode := 0, Headers := parseHeaders h, Body := b } := by
  rw [get_of_reads dc fs key s h b hs hh hb]
  simp [goAtoi, hinv]

/-- Witness for C9: a `status` file holding `abc`. -/
theorem C9_invalid_status_zero_witness :
    (goAtoiSyntaxOk "abc".toList = false) ∧
    DeskCache.Get ⟨["root"], 3600⟩
      ⟨[(["root", "k", "status"], some "abc".toList),
        (["root", "k", "headers"], some []),
        (["root", "k", "body"], some "data".toList)], [["root"]]⟩ "k"
    = some { StatusCode := 0, Headers := parseHeaders [], Body := "data".toList } :=
  ⟨by decide,
    C9_invalid_status_zero ⟨["root"], 3600⟩
      ⟨[(["root", "k", "status"], some "abc".toList),
        (["root", "k", "headers"], some []),
        (["root", "k", "body"], some "data".toList)], [["root"]]⟩ "k"
      "abc".toList [] "data".toList (by decide) (by decide) (by decide) (by decide)⟩

/-- C10: `NewDeskCache` errors exactly when the root path is not an
existing directory (missing, or present as a file); and after `Clear`
removes the root, constructing a fresh `DeskCache` at that root fails. -/
theorem C10_new_desk_cache (fs : FS) (root : List String) (port : String) (ttl : Int) :
    (exceptIsError (NewDeskCache fs root port ttl) = true ↔ root ∉ fs.dirs) ∧
    exceptIsError
      (NewDeskCache (DeskCache.Clear ⟨root, ttl⟩ fs) root port ttl) = true := by
  have hself : root.isPrefixOf root = true := by
    have h0 := isPrefixOf_append root []
    rw [List.append_nil] at h0
    exact h0
  constructor
  · constructor
    · intro herr hmem
      unfold NewDeskCache validateDirPath at herr
      rw [if_pos hmem] at herr
      simp [exceptIsError] at herr
    · intro hmem
      unfold NewDeskCache validateDirPath
      rw [if_neg hmem]
      by_cases hf : root ∈ fs.files.map Prod.fst
      · rw [if_pos hf]; rfl
      · rw [if_neg hf]; rfl
  · have h1 : root ∉ (DeskCache.Clear ⟨root, ttl⟩ fs).dirs := by
      intro hmem
      unfold DeskCache.Clear at hmem
      have := (List.mem_filter.mp hmem).2
      rw [hself] at this
      exact absurd this (by decide)
    have h2 : root ∉ (DeskCache.Clear ⟨root, ttl⟩ fs).files.map Prod.fst := by
      intro hmem
      obtain ⟨q, hq, hq1⟩ := List.mem_map.mp hmem
      unfold DeskCache.Clear at hq
      have := (List.mem_filter.mp hq).2
      rw [hq1, hself] at this
      exact absurd this (by decide)
    unfold NewDeskCache validateDirPath
    rw [if_neg h1, if_neg h2]
    rfl

/-- Witness for C10 at a concrete filesystem whose root exists. -/
theorem C10_new_desk_cache_witness :
    exceptIsError
      (NewDeskCache (DeskCache.Clear ⟨["root"], 3600⟩ ⟨[], [["root"]]⟩)
        ["root"] ":8080" 3600) = true :=
  (C10_new_desk_cache ⟨[], [["root"]]⟩ ["root"] ":8080" 3600).2

/-! ## Handler branch lemmas -/

theorem handle_hit_eq (cps : CachingProxyServer) (fs : FS) (r : Request)
    (up : UpstreamResult) (val : CacheEntry)
    (hg : DeskCache.Get cps.Cache fs (cacheKey r) = some val) (hm : r.method = "GET") :
    handleRequests cps fs r up =
      ({ status := val.StatusCode,
         headersSent := Header.set [] "X-Cache".toList "HIT".toList,
         body := val.Body }, fs) := by
  simp [handleRequests, hg, hm]

theorem handle_miss_none_eq (cps : CachingProxyServer) (fs : FS) (r : Request)
    (up : UpstreamResult) (hg : DeskCache.Get cps.Cache fs (cacheKey r) = none) :
    handleRequests cps fs r up = handleMiss cps fs r (cacheKey r) up := by
  simp [handleRequests, hg]

theorem handle_miss_nonget_eq (cps : CachingProxyServer) (fs : FS) (r : Request)
    (up : UpstreamResult) (hm : ¬(r.method = "GET")) :
    handleRequests cps fs r up = handleMiss cps fs r (cacheKey r) up := by
  cases hg : DeskCache.Get cps.Cache fs (cacheKey r) with
  | none => exact handle_miss_none_eq cps fs r up hg
  | some val => simp [handleRequests, hg, hm]

theorem handleMiss_err_eq (cps : CachingProxyServer) (fs : FS) (r : Request)
    (key : String) :
    handleMiss cps fs r key UpstreamResult.err =
      ({ status := 500,
         headersSent :=
           Header.set (Header.set (Header.set [] "X-Cache".toList "MISS".toList)
               "Content-Type".toList "text/plain; charset=utf-8".toList)
             "X-Content-Type-Options".toList "nosniff".toList,
         body := "error forwarding request\n".toList }, fs) := rfl

theorem handleMiss_ok_get_eq (cps : CachingProxyServer) (fs : FS) (r : Request)
    (key : String) (st : Int) (hs : Header) (bd : GoStr) (hm : r.method = "GET") :
    handleMiss cps fs r key (UpstreamResult.ok st hs bd) =
      ({ status := st,
         headersSent := Header.set [] "X-Cache".toList "MISS".toList,
         body := bd },
       DeskCache.Set cps.Cache fs key { StatusCode := st, Body := bd, Headers := hs }) := by
  simp [handleMiss, hm]

theorem handleMiss_ok_nonget_eq (cps : CachingProxyServer) (fs : FS) (r : Request)
    (key : String) (st : Int) (hs : Header) (bd : GoStr) (hm : ¬(r.method = "GET")) :
    handleMiss cps fs r key (UpstreamResult.ok st hs bd) =
      ({ status := st,
         headersSent := Header.set [] "X-Cache".toList "MISS".toList,
         body := bd }, fs) := by
  simp [handleMiss, hm]

theorem values_hit :
    Header.values (Header.set [] "X-Cache".toList "HIT".toList) "X-Cache".toList
    = ["HIT".toList] := by decide

theorem values_miss :
    Header.values (Header.set [] "X-Cache".toList "MISS".toList) "X-Cache".toList
    = ["MISS".toList] := by decide

theorem values_err :
    Header.values
      (Header.set (Header.set (Header.set [] "X-Cache".toList "MISS".toList)
          "Content-Type".toList "text/plain; charset=utf-8".toList)
        "X-Content-Type-Options".toList "nosniff".toList) "X-Cache".toList
    = ["MISS".toList] := by decide

/-- C8: GET-only caching with the `X-Cache` marker — every response
carries `X-Cache` equal to `HIT` or `MISS`; it is `HIT` exactly when the
request is a GET whose key is in the cache; a non-GET request always takes
the MISS path (even when an entry exists for its key) and never changes
the store; and the store only ever changes on a GET request. -/
theorem C8_get_only_caching (cps : CachingProxyServer) (fs : FS) (r : Request)
    (up : UpstreamResult) :
    (Header.values (handleRequests cps fs r up).1.headersSent "X-Cache".toList
        = ["HIT".toList] ∨
     Header.values (handleRequests cps fs r up).1.headersSent "X-Cache".toList
        = ["MISS".toList]) ∧
    (Header.values (handleRequests cps fs r up).1.headersSent "X-Cache".toList
        = ["HIT".toList] ↔
      r.method = "GET" ∧ (DeskCache.Get cps.Cache fs (cacheKey r)).isSome = true) ∧
    (r.method ≠ "GET" → (handleRequests cps fs r up).2 = fs ∧
      Header.values (handleRequests cps fs r up).1.headersSent "X-Cache".toList
        = ["MISS".toList]) ∧
    ((handleRequests cps fs r up).2 ≠ fs → r.method = "GET") := by
  by_cases hm : r.method = "GET"
  · cases hg : DeskCache.Get cps.Cache fs (cacheKey r) with
    | some val =>
      rw [handle_hit_eq cps fs r up val hg hm]
      refine ⟨Or.inl values_hit, ?_, ?_, ?_⟩
      · exact ⟨fun _ => ⟨hm, rfl⟩, fun _ => values_hit⟩
      · intro hne; exact absurd hm hne
      · intro _; exact hm
    | none =>
      rw [handle_miss_none_eq cps fs r up hg]
      cases up with
      | err =>
        rw [handleMiss_err_eq]
        refine ⟨Or.inr values_err, ?_, ?_, ?_⟩
        · constructor
          · intro hcontra
            rw [values_err] at hcontra
            exact absurd hcontra (by decide)
          · rintro ⟨_, hsome⟩
            exact absurd hsome (by decide)
        · intro hne; exact absurd hm hne
        · intro _; exact hm
      | ok st hs2 bd =>
        rw [handleMiss_ok_get_eq cps fs r (cacheKey r) st hs2 bd hm]
        refine ⟨Or.inr values_miss, ?_, ?_, ?_⟩
        · constructor
          · intro hcontra
            rw [values_miss] at hcontra
            exact absurd hcontra (by decide)
          · rintro ⟨_, hsome⟩
            exact absurd hsome (by decide)
        · intro hne; exact absurd hm hne
        · intro _; exact hm
  · rw [handle_miss_nonget_eq cps fs r up hm]
    have hGetFalse : ¬(r.method = "GET" ∧
        (DeskCache.Get cps.Cache fs (cacheKey r)).isSome = true) := by
      rintro ⟨hc, _⟩; exact hm hc
    cases up with
    | err =>
      rw [handleMiss_err_eq]
      refine ⟨Or.inr values_err, ?_, ?_, ?_⟩
      · constructor
        · intro hcontra
          rw [values_err] at hcontra
          exact absurd hcontra (by decide)
        · intro hc; exact absurd hc hGetFalse
      · intro _; exact ⟨rfl, values_err⟩
      · intro hne; exact absurd rfl hne
    | ok st hs2 bd =>
      rw [handleMiss_ok_nonget_eq cps fs r (cacheKey r) st hs2 bd hm]
      refine ⟨Or.inr values_miss, ?_, ?_, ?_⟩
      · constructor
        · intro hcontra
          rw [values_miss] at hcontra
          exact absurd hcontra (by decide)
        · intro hc; exact absurd hc hGetFalse
      · intro _; exact ⟨rfl, values_miss⟩
      · intro hne; exact absurd rfl hne

/-- Witness for C8: a POST request whose key has a cached entry still
takes the MISS path and does not change the store. -/
theorem C8_get_only_caching_witness :
    ("POST" : String) ≠ "GET" ∧
    (handleRequests ⟨":8080", "http://origin", ⟨["root"], 3600⟩⟩
      ⟨[(["root", "POST-/a", "status"], some "200".toList),
        (["root", "POST-/a", "headers"], some []),
        (["root", "POST-/a", "body"], some [])], [["root"]]⟩
      ⟨"POST", "/a", ""⟩ (UpstreamResult.ok 201 [] "ok".toList)).2 =
      ⟨[(["root", "POST-/a", "status"], some "200".toList),
        (["root", "POST-/a", "headers"], some []),
        (["root", "POST-/a", "body"], some [])], [["root"]]⟩ ∧
    Header.values (handleRequests ⟨":8080", "http://origin", ⟨["root"], 3600⟩⟩
      ⟨[(["root", "POST-/a", "status"], some "200".toList),
        (["root", "POST-/a", "headers"], some []),
        (["root", "POST-/a", "body"], some [])], [["root"]]⟩
      ⟨"POST", "/a", ""⟩ (UpstreamResult.ok 201 [] "ok".toList)).1.headersSent
      "X-Cache".toList = ["MISS".toList] :=
  ⟨by decide,
    ((C8_get_only_caching ⟨":8080", "http://origin", ⟨["root"], 3600⟩⟩
      ⟨[(["root", "POST-/a", "status"], some "200".toList),
        (["root", "POST-/a", "headers"], some []),
        (["root", "POST-/a", "body"], some [])], [["root"]]⟩
      ⟨"POST", "/a", ""⟩ (UpstreamResult.ok 201 [] "ok".toList)).2.2.1 (by decide)).1,
    ((C8_get_only_caching ⟨":8080", "http://origin", ⟨["root"], 3600⟩⟩
      ⟨[(["root", "POST-/a", "status"], some "200".toList),
        (["root", "POST-/a", "headers"], some []),
        (["root", "POST-/a", "body"], some [])], [["root"]]⟩
      ⟨"POST", "/a", ""⟩ (UpstreamResult.ok 201 [] "ok".toList)).2.2.1 (by decide)).2⟩
